import Mathlib

/-!
Shallow embedding of the PEP 484 type-hints generator of SIP
(`sipgen/type_hints.c`): the annotation parser (`parseTypeHint`,
`parseTypeHintNode`), the qualified-name resolver (`lookupType`,
`lookupEnum`, `lookupMappedType`, `lookupClass`), the versioned
default-implementation selector (`getDefaultImplementation`,
`inDefaultAPI`), the union normalizer (`flatten_unions`) and the
forward-reference-aware renderer (`pyiTypeHint`, `pyiTypeHintNode`,
`prClassRef`, `prEnumRef`, `isDefined`).

C linked lists become Lean lists; pointers to arena records become
indices into the lists held by `SipSpec`; out-of-range indices read a
harmless default record (real runs never produce them).  The mutable
per-hint fields `status` and `root` of `typeHintDef` become an explicit
state (`ParseState`) threaded through the functions.  The mutual
recursion `parseTypeHint` → `parseTypeHintNode` → `lookupType` →
`copyTypeHintNode` → `parseTypeHint` is broken by passing the
re-entrant `parseTypeHint` as an explicit callback `ph`, and the inner
recursions (over sub-spans of the annotation and over the segments of a
dotted name) run on a local character budget that is always large
enough: a recursive step always consumes at least one character of its
span.  The outer fuel of `parseTypeHintF` bounds only the nesting of
annotation re-entry, which the status field makes finite.
-/

set_option maxRecDepth 4000

namespace Sip

/-- Resolution status of a type hint (`typeHintDef.status` in sip.h):
`needs_parsing` → `being_parsed` → `parsed`. -/
inductive HintStatus where
  | needs_parsing
  | being_parsed
  | parsed
deriving DecidableEq

/-- A parsed type-hint node (`typeHintNodeDef`).  `typing` carries the
name of an object of the typing module together with the list of child
nodes (the C `children` linked list); `classNode` / `enumNode` carry
the index of the resolved class / enum; `brackets` is the
`brackets_node` placeholder; `other` is the `other_node` fallback
carrying the raw text. -/
inductive TypeHintNode where
  | typing (name : String) (children : List TypeHintNode)
  | classNode (cd : Nat)
  | enumNode (ed : Nat)
  | brackets
  | other (name : String)

/-- An API version range (`apiVersionRangeDef`): a named API together
with `[from, to)` bounds, where a 0 bound means unbounded. -/
structure ApiVersionRange where
  api_name : String
  from_v : Nat
  to_v : Nat
deriving DecidableEq

/-- The type of an interface file (`ifaceFileType`), restricted to the
two constructors `getDefaultImplementation` distinguishes. -/
inductive IfaceType where
  | class_iface
  | mappedtype_iface
deriving DecidableEq

/-- An interface file (`ifaceFileDef`): owning module, kind, optional
version range, and the chain of alternate versions
(`first_alt`/`next_alt`) as a list of interface-file indices in
declaration order. -/
structure IfaceFileDef where
  module : Nat
  itype : IfaceType
  api_range : Option ApiVersionRange
  first_alt : List Nat

/-- A class (`classDef`): Python name, enclosing class (`ecd`),
interface file, the two directional type hints (indices into the hint
arena), and the `isExternal` / `isHiddenNamespace` flags. -/
structure ClassDef where
  pyname : String
  ecd : Option Nat
  iff : Nat
  typehint_in : Option Nat
  typehint_out : Option Nat
  external : Bool
  hiddenNamespace : Bool

/-- A mapped type (`mappedTypeDef`). -/
structure MappedTypeDef where
  pyname : Option String
  iff : Nat
  typehint_in : Option Nat
  typehint_out : Option Nat

/-- An enum (`enumDef`): optional Python name, enclosing class
(`ecd`), enclosing mapped type (`emtd`), owning module. -/
structure EnumDef where
  pyname : Option String
  ecd : Option Nat
  emtd : Option Nat
  module : Nat

/-- The read-only part of the specification (`sipSpec`) that the
type-hints generator consults, plus the arena of raw hint strings
(`typeHintDef.raw_hint`, one entry per `typeHintDef`) and the
configured default version per named API (`findAPI(...)->from`). -/
structure SipSpec where
  modules : List String
  ifaces : List IfaceFileDef
  classes : List ClassDef
  mappedtypes : List MappedTypeDef
  enums : List EnumDef
  hints : List String
  apis : List (String × Nat)

def defaultIface : IfaceFileDef := ⟨0, .class_iface, none, []⟩
def defaultClass : ClassDef := ⟨"", none, 0, none, none, false, false⟩
def defaultMtd : MappedTypeDef := ⟨none, 0, none, none⟩
def defaultEnum : EnumDef := ⟨none, none, none, 0⟩

def iffGet (pt : SipSpec) (i : Nat) : IfaceFileDef := (pt.ifaces.get? i).getD defaultIface
def classGet (pt : SipSpec) (i : Nat) : ClassDef := (pt.classes.get? i).getD defaultClass
def mtdGet (pt : SipSpec) (i : Nat) : MappedTypeDef := (pt.mappedtypes.get? i).getD defaultMtd
def enumGet (pt : SipSpec) (i : Nat) : EnumDef := (pt.enums.get? i).getD defaultEnum
def rawGet (pt : SipSpec) (i : Nat) : String := (pt.hints.get? i).getD ""
def moduleName (pt : SipSpec) (i : Nat) : String := (pt.modules.get? i).getD ""

/-- The mutable part of one `typeHintDef`: its parse status and the
cached root node. -/
structure HintState where
  status : HintStatus
  root : Option TypeHintNode

/-- The mutable state of all `typeHintDef` records, indexed like
`SipSpec.hints`. -/
abbrev ParseState := List HintState

/-- Read one hint's mutable state.  An out-of-range index reads as
already `parsed` with no root, which keeps every function total; real
runs only use valid indices. -/
def getHint (σ : ParseState) (h : Nat) : HintState := (σ.get? h).getD ⟨.parsed, none⟩

def setHint (σ : ParseState) (h : Nat) (e : HintState) : ParseState := σ.set h e

/-- Number of hints still awaiting their first parse; strictly
decreases whenever `parseTypeHint` actually parses. -/
def needsCount (σ : ParseState) : Nat :=
  σ.countP (fun e => e.status == HintStatus.needs_parsing)

/-- C `strip_leading`: drop leading spaces of a span. -/
def strip_leading (s : List Char) : List Char := s.dropWhile (fun c => c == ' ')

/-- C `strip_trailing`: drop trailing spaces of a span. -/
def strip_trailing (s : List Char) : List Char :=
  (s.reverse.dropWhile (fun c => c == ' ')).reverse

def trimSpaces (s : List Char) : List Char := strip_trailing (strip_leading s)

/-- The child-span scan of `parseTypeHintNode`: the region between the
first `[` and the end of the (right-trimmed) span is cut at every `,`
or `]` that occurs at bracket depth zero; characters left over when the
input ends without a depth-zero separator are dropped, exactly as the C
loop breaks out when the scan pointer reaches the end. -/
def splitChildrenGo : List Char → Nat → List Char → List (List Char)
  | [], _, _ => []
  | c :: rest, depth, cur =>
    if c == '[' then splitChildrenGo rest (depth + 1) (cur ++ [c])
    else if c == ']' then
      if depth == 0 then cur :: splitChildrenGo rest 0 []
      else splitChildrenGo rest (depth - 1) (cur ++ [c])
    else if c == ',' && depth == 0 then cur :: splitChildrenGo rest 0 []
    else splitChildrenGo rest depth (cur ++ [c])

def splitChildren (content : List Char) : List (List Char) := splitChildrenGo content 0 []

/-- C `typingModule`: the fixed table of recognized objects of the
typing module; returns the table entry on a match. -/
def typingNames : List String :=
  ["Any", "Callable", "Dict", "Iterable", "Iterator", "List", "Mapping",
   "NamedTuple", "Optional", "Sequence", "Set", "Tuple", "Union"]

def typingModule (name : String) : Option String :=
  typingNames.find? (fun s => s == name)

/-- C `flatten_unions`: splice each `Union` child's own children into
the list in place of the child, preserving order. -/
def flatten_unions : List TypeHintNode → List TypeHintNode
  | [] => []
  | TypeHintNode.typing nm cs :: rest =>
    if nm = "Union" then cs ++ flatten_unions rest
    else TypeHintNode.typing nm cs :: flatten_unions rest
  | n :: rest => n :: flatten_unions rest

/-- C `lookupEnum`: first enum whose Python name matches and whose
enclosing class and mapped type are exactly the given scopes. -/
def lookupEnum (pt : SipSpec) (name : String) (scope_cd scope_mtd : Option Nat) : Option Nat :=
  (List.range pt.enums.length).find? (fun i =>
    let ed := enumGet pt i
    ed.pyname == some name && ed.ecd == scope_cd && ed.emtd == scope_mtd)

/-- Default version configured for a named API
(`findAPI(pt, name)->from`). -/
def findAPIFrom (pt : SipSpec) (name : String) : Nat :=
  ((pt.apis.find? (fun p => p.1 == name)).map Prod.snd).getD 0

def findClassByIff (pt : SipSpec) (i : Nat) : Option Nat :=
  (List.range pt.classes.length).find? (fun c => (classGet pt c).iff == i)

def findMtdByIff (pt : SipSpec) (i : Nat) : Option Nat :=
  (List.range pt.mappedtypes.length).find? (fun m => (mtdGet pt m).iff == i)

/-- The scan of `getDefaultImplementation` over the `first_alt` chain:
skip alternatives whose range excludes the default version, stop at the
first one in range and return the class or mapped type owning that
interface file.  (Alternate interface files of a versioned group always
carry a version range in well-formed specifications; a missing range is
skipped.) -/
def findAltImpl (pt : SipSpec) (def_api : Nat) : List Nat → Option Nat × Option Nat
  | [] => (none, none)
  | i :: rest =>
    let ii := iffGet pt i
    match ii.api_range with
    | none => findAltImpl pt def_api rest
    | some avd =>
      if avd.from_v > 0 && avd.from_v > def_api then findAltImpl pt def_api rest
      else if avd.to_v > 0 && avd.to_v ≤ def_api then findAltImpl pt def_api rest
      else if ii.itype = IfaceType.class_iface then (findClassByIff pt i, none)
      else (none, findMtdByIff pt i)

/-- C `getDefaultImplementation`: for a class (`isClass = true`) or a
mapped type, return the pair `(class, mapped type)` implementing it
under the default API version; a symbol without alternatives is
returned unchanged. -/
def getDefaultImplementation (pt : SipSpec) (isClass : Bool) (cdi mtdi : Option Nat) :
    Option Nat × Option Nat :=
  let iffId := if isClass then (classGet pt (cdi.getD 0)).iff else (mtdGet pt (mtdi.getD 0)).iff
  match (iffGet pt iffId).api_range with
  | none => if isClass then (cdi, none) else (none, mtdi)
  | some ar => findAltImpl pt (findAPIFrom pt ar.api_name) (iffGet pt iffId).first_alt

/-- C `getClassImplementation`. -/
def getClassImplementation (pt : SipSpec) (cd : Nat) : Option Nat :=
  (getDefaultImplementation pt true (some cd) none).1

/-- C `getMappedTypeImplementation`. -/
def getMappedTypeImplementation (pt : SipSpec) (mtd : Nat) : Option Nat :=
  (getDefaultImplementation pt false none (some mtd)).2

/-- C `lookupMappedType`: scan the mapped types for a name match whose
default-API implementation exists; a match without an implementation is
skipped and the scan continues. -/
def lookupMappedTypeGo (pt : SipSpec) (name : String) : List Nat → Option Nat
  | [] => none
  | i :: rest =>
    if (mtdGet pt i).pyname == some name then
      match getMappedTypeImplementation pt i with
      | some impl => some impl
      | none => lookupMappedTypeGo pt name rest
    else lookupMappedTypeGo pt name rest

def lookupMappedType (pt : SipSpec) (name : String) : Option Nat :=
  lookupMappedTypeGo pt name (List.range pt.mappedtypes.length)

/-- C `lookupClass`: scan the non-external classes of the given scope
for a name match whose default-API implementation exists. -/
def lookupClassGo (pt : SipSpec) (name : String) (scope_cd : Option Nat) : List Nat → Option Nat
  | [] => none
  | i :: rest =>
    let cd := classGet pt i
    if cd.pyname == name && cd.ecd == scope_cd && !cd.external then
      match getClassImplementation pt i with
      | some impl => some impl
      | none => lookupClassGo pt name scope_cd rest
    else lookupClassGo pt name scope_cd rest

def lookupClass (pt : SipSpec) (name : String) (scope_cd : Option Nat) : Option Nat :=
  lookupClassGo pt name scope_cd (List.range pt.classes.length)

/-- C `copyTypeHintNode`: parse the referenced hint (through the
re-entry callback `ph`) and return a detached copy of its cached root,
or no node when the parse left no root. -/
def copyTypeHintNode (ph : Nat → ParseState → Option ParseState) (thd : Nat) (σ : ParseState) :
    Option (Option TypeHintNode × ParseState) :=
  match ph thd σ with
  | none => none
  | some σ1 => some ((getHint σ1 thd).root, σ1)

/-- The segment loop of C `lookupType`: walk the dotted name one
segment at a time, trying enum, mapped-type and class lookups in that
order and descending into the found scope; every `break` of the C loop
lands on the `other_node` fallback carrying the full original name.
The budget argument only bounds the loop and always suffices when it
exceeds the remaining length, since each iteration consumes at least
one character (`a.` per segment). -/
def lookupTypeGo (ph : Nat → ParseState → Option ParseState) (pt : SipSpec) (out : Bool) :
    Nat → Option Nat → Option Nat → List Char → List Char → ParseState →
    Option (Option TypeHintNode × ParseState)
  | 0, _, _, _, _, _ => none
  | _ + 1, scd, smtd, fullname, [], σ =>
    -- `while (*sp != '\0')` exits: nothing was found
    let _ := scd
    let _ := smtd
    some (some (TypeHintNode.other (String.mk fullname)), σ)
  | f + 1, scd, smtd, fullname, c :: cs, σ =>
    let rem := c :: cs
    let part := rem.takeWhile (fun ch => ch != '.')
    let rest := rem.drop part.length
    let last_part := rest.isEmpty       -- `ep == NULL`
    let pname := String.mk part
    match lookupEnum pt pname scd smtd with
    | some ed =>
      if last_part then some (some (TypeHintNode.enumNode ed), σ)
      else some (some (TypeHintNode.other (String.mk fullname)), σ)
    | none =>
      if smtd.isSome then some (some (TypeHintNode.other (String.mk fullname)), σ)
      else
        match (if scd = none then lookupMappedType pt pname else none) with
        | some mtd =>
          if last_part then
            match (if out then (mtdGet pt mtd).typehint_out else (mtdGet pt mtd).typehint_in) with
            | some thd =>
              if (getHint σ thd).status ≠ HintStatus.being_parsed then
                copyTypeHintNode ph thd σ
              else
                -- recursively defined mapped type: omit it
                some (none, σ)
            | none => some (none, σ)
          else lookupTypeGo ph pt out f none (some mtd) fullname (rest.drop 1) σ
        | none =>
          match lookupClass pt pname scd with
          | some cd =>
            if last_part then
              match (if out then (classGet pt cd).typehint_out else (classGet pt cd).typehint_in) with
              | some thd =>
                if (getHint σ thd).status ≠ HintStatus.being_parsed then
                  copyTypeHintNode ph thd σ
                else some (some (TypeHintNode.classNode cd), σ)
              | none => some (some (TypeHintNode.classNode cd), σ)
            else lookupTypeGo ph pt out f (some cd) smtd fullname (rest.drop 1) σ
          | none => some (some (TypeHintNode.other (String.mk fullname)), σ)

/-- C `lookupType` (entry point of the segment loop). -/
def lookupType (ph : Nat → ParseState → Option ParseState) (pt : SipSpec) (out : Bool)
    (name : List Char) (σ : ParseState) : Option (Option TypeHintNode × ParseState) :=
  lookupTypeGo ph pt out (name.length + 1) none none name name σ

/-- The tail of C `parseTypeHintNode` after the children have been
collected: dispatch on the isolated head name.  An empty name yields
the `brackets_node` placeholder (or a parse failure for top-level empty
brackets with no children); a typing-module name yields a
`typing_node`, with an empty `Union` eliding the node and a non-empty
`Union` flattening its children; any other name is resolved through
`lookupType`, and a non-typing head with brackets fails the parse. -/
def parseTypeHintName (ph : Nat → ParseState → Option ParseState) (pt : SipSpec) (out : Bool)
    (top_level : Bool) (name : List Char) (have_brackets : Bool)
    (children : List TypeHintNode) (σ : ParseState) :
    Option (Bool × Option TypeHintNode × ParseState) :=
  if name.isEmpty then
    if top_level && have_brackets && children.isEmpty then some (false, none, σ)
    else some (true, some TypeHintNode.brackets, σ)
  else
    match typingModule (String.mk name) with
    | some ty =>
      if ty = "Union" then
        if children.isEmpty then some (true, none, σ)
        else some (true, some (TypeHintNode.typing ty (flatten_unions children)), σ)
      else some (true, some (TypeHintNode.typing ty children), σ)
    | none =>
      match lookupType ph pt out name σ with
      | none => none
      | some (nd, σ1) =>
        -- only objects from the typing module can have brackets
        if have_brackets then some (false, none, σ1)
        else some (true, nd, σ1)

/-- C `parseTypeHintNode` together with its child-collection loop,
processing a list of spans left to right: the singleton case is the C
function on one span.  Per span: trim, find the first `[`; with
brackets the last character must be `]`, the children spans are parsed
first (a failing child fails the whole parse), then the head name is
dispatched; a span whose parse succeeds with no node is omitted from
the result list.  A failed parse reports `false` and keeps the state
reached so far.  The budget only bounds the recursion and suffices
whenever it exceeds the total size of the spans. -/
def parseTypeHintNodesF (ph : Nat → ParseState → Option ParseState) (pt : SipSpec) (out : Bool) :
    Nat → Bool → List (List Char) → ParseState →
    Option (Bool × List TypeHintNode × ParseState)
  | 0, _, _, _ => none
  | _ + 1, _, [], σ => some (true, [], σ)
  | g + 1, top_level, s :: rest, σ =>
    let span := trimSpaces s
    match span.findIdx? (fun c => c == '[') with
    | some i =>
      if span.getLast? = some ']' then
        let name := strip_trailing (span.take i)
        let content := span.drop (i + 1)
        match parseTypeHintNodesF ph pt out g false (splitChildren content) σ with
        | none => none
        | some (false, _, σ1) => some (false, [], σ1)
        | some (true, children, σ1) =>
          match parseTypeHintName ph pt out top_level name true children σ1 with
          | none => none
          | some (false, _, σ2) => some (false, [], σ2)
          | some (true, nd, σ2) =>
            match parseTypeHintNodesF ph pt out g top_level rest σ2 with
            | none => none
            | some (false, _, σ3) => some (false, [], σ3)
            | some (true, nodes, σ3) =>
              some (true, (match nd with | none => nodes | some n => n :: nodes), σ3)
      else some (false, [], σ)
    | none =>
      match parseTypeHintName ph pt out top_level span false [] σ with
      | none => none
      | some (false, _, σ2) => some (false, [], σ2)
      | some (true, nd, σ2) =>
        match parseTypeHintNodesF ph pt out g top_level rest σ2 with
        | none => none
        | some (false, _, σ3) => some (false, [], σ3)
        | some (true, nodes, σ3) =>
          some (true, (match nd with | none => nodes | some n => n :: nodes), σ3)

/-- C `parseTypeHint`: parse a hint exactly once.  A hint still at
`needs_parsing` is marked `being_parsed`, its raw string is parsed (the
recursion re-enters through `parseTypeHintF f` one fuel level down),
and the root (if any) is cached with status `parsed`; any other status
leaves the state untouched.  The fuel only bounds the nesting depth of
annotation re-entry. -/
def parseTypeHintF : Nat → SipSpec → Bool → Nat → ParseState → Option ParseState
  | 0, _, _, _, _ => none
  | f + 1, pt, out, thd, σ =>
    if (getHint σ thd).status = HintStatus.needs_parsing then
      let σ1 := setHint σ thd ⟨HintStatus.being_parsed, (getHint σ thd).root⟩
      match parseTypeHintNodesF (fun h' σ' => parseTypeHintF f pt out h' σ') pt out
          ((rawGet pt thd).toList.length + 2) true [(rawGet pt thd).toList] σ1 with
      | none => none
      | some (_, nodes, σ2) => some (setHint σ2 thd ⟨HintStatus.parsed, nodes.head?⟩)
    else some σ

/-- C `inDefaultAPI`: does a version range include the default version
of its API?  A missing range trivially does; a positive lower bound
above the default version, or a positive upper bound at or below it,
excludes. -/
def inDefaultAPI (pt : SipSpec) (range : Option ApiVersionRange) : Bool :=
  match range with
  | none => true
  | some r =>
    let def_api := findAPIFrom pt r.api_name
    if r.from_v > 0 && r.from_v > def_api then false
    else if r.to_v > 0 && r.to_v ≤ def_api then false
    else true

/-- C `anyObject`: the spelling of the completely unconstrained type. -/
def anyObject (pep484 : Bool) : String := if pep484 then "typing.Any" else "object"

/-- C `maybeAnyObject`: print a hint verbatim unless it is the
reserved token `Any`, which is substituted by `anyObject`. -/
def maybeAnyObject (hint : String) (pep484 : Bool) : String :=
  if hint ≠ "Any" then hint else anyObject pep484

/-- C `prScopedPythonName`: walk up the enclosing-class chain printing
`outer.inner.`, stopping at module level or at a hidden namespace.
The budget bounds the walk; enclosing-scope chains of real
specifications are acyclic and shorter than the class count. -/
def prScopedPythonNameF (pt : SipSpec) : Nat → Option Nat → Option String → String
  | _, none, pyname => pyname.getD ""
  | 0, some _, pyname => pyname.getD ""
  | f + 1, some s, pyname =>
    if (classGet pt s).hiddenNamespace then pyname.getD ""
    else prScopedPythonNameF pt f (classGet pt s).ecd none ++ (classGet pt s).pyname ++ "."
      ++ pyname.getD ""

def prScopedPythonName (pt : SipSpec) (scope : Option Nat) (pyname : Option String) : String :=
  prScopedPythonNameF pt pt.classes.length scope pyname

/-- C `inIfaceFileList`: membership of an interface file in the
emission ledger (`defined`). -/
def inIfaceFileList (iff : Nat) (defined : List Nat) : Bool := defined.contains iff

/-- The enclosing-scope walk of C `isDefined`: every scope on the
chain must already be in the ledger.  The budget bounds the walk as in
`prScopedPythonNameF`. -/
def isDefinedScopes (pt : SipSpec) : Nat → Option Nat → List Nat → Bool
  | _, none, _ => true
  | 0, some _, _ => true
  | f + 1, some s, defined =>
    if inIfaceFileList (classGet pt s).iff defined then
      isDefinedScopes pt f (classGet pt s).ecd defined
    else false

/-- C `isDefined`: a type of another module counts as defined (it was
imported); a type of the current module is defined when its interface
file and those of all of its enclosing scopes are in the ledger. -/
def isDefined (pt : SipSpec) (iff : Nat) (scope : Option Nat) (mod : Nat)
    (defined : List Nat) : Bool :=
  if (iffGet pt iff).module ≠ mod then true
  else if !inIfaceFileList iff defined then false
  else isDefinedScopes pt pt.classes.length scope defined

/-- C `prClassRef`: render a class reference; in PEP 484 mode an
external or already-defined class is printed bare, anything else is
wrapped in forward-reference quotes, and a class of another module gets
its module name prefixed. -/
def prClassRef (pt : SipSpec) (cd : Nat) (mod : Nat) (defined : List Nat)
    (pep484 : Bool) : String :=
  let c := classGet pt cd
  if pep484 then
    let is_defined := c.external || isDefined pt c.iff c.ecd mod defined
    (if is_defined then "" else "'")
      ++ (if (iffGet pt c.iff).module ≠ mod then moduleName pt (iffGet pt c.iff).module ++ "."
          else "")
      ++ prScopedPythonName pt c.ecd (some c.pyname)
      ++ (if is_defined then "" else "'")
  else prScopedPythonName pt c.ecd (some c.pyname)

/-- C `prScopedEnumName`. -/
def prScopedEnumName (pt : SipSpec) (ed : Nat) : String :=
  let e := enumGet pt ed
  match e.emtd with
  | some m => (mtdGet pt m).pyname.getD "" ++ "." ++ e.pyname.getD ""
  | none => prScopedPythonName pt e.ecd e.pyname

/-- C `prEnumRef`: render an enum reference; the defined-ness check
uses the enclosing class or mapped type, and a module-level enum is
always treated as defined (global enums are emitted first). -/
def prEnumRef (pt : SipSpec) (ed : Nat) (mod : Nat) (defined : List Nat)
    (pep484 : Bool) : String :=
  let e := enumGet pt ed
  if pep484 then
    let is_defined :=
      match e.ecd with
      | some c => isDefined pt (classGet pt c).iff (classGet pt c).ecd mod defined
      | none =>
        match e.emtd with
        | some m => isDefined pt (mtdGet pt m).iff none mod defined
        | none => true
    (if is_defined then "" else "'")
      ++ (if e.module ≠ mod then moduleName pt e.module ++ "." else "")
      ++ prScopedEnumName pt ed
      ++ (if is_defined then "" else "'")
  else prScopedEnumName pt ed

/-- C `pyiTypeHintNode`: render one node; a `typing_node` prints a
`typing.` prefix in PEP 484 mode and brackets only around a non-empty
child list; children are comma-joined.  The budget bounds the
structural recursion and suffices beyond the tree depth. -/
def pyiTypeHintNodeF : Nat → SipSpec → Nat → List Nat → Bool → TypeHintNode → String
  | 0, _, _, _, _, _ => ""
  | f + 1, pt, mod, defined, pep484, node =>
    match node with
    | TypeHintNode.typing name children =>
      (if pep484 then "typing." else "") ++ name
        ++ (if children.isEmpty then ""
            else "[" ++ String.intercalate ", "
              (children.map (pyiTypeHintNodeF f pt mod defined pep484)) ++ "]")
    | TypeHintNode.classNode cd => prClassRef pt cd mod defined pep484
    | TypeHintNode.enumNode ed => prEnumRef pt ed mod defined pep484
    | TypeHintNode.brackets => "[]"
    | TypeHintNode.other nm => maybeAnyObject nm pep484

/-- C `pyiTypeHint`: parse the hint (updating the cached state), then
render the cached root, falling back to the raw hint text through
`maybeAnyObject` when there is no root. -/
def pyiTypeHint (f : Nat) (pt : SipSpec) (thd mod : Nat) (defined : List Nat)
    (pep484 out : Bool) (σ : ParseState) : Option (String × ParseState) :=
  match parseTypeHintF f pt out thd σ with
  | none => none
  | some σ1 =>
    match (getHint σ1 thd).root with
    | some root => some (pyiTypeHintNodeF f pt mod defined pep484 root, σ1)
    | none => some (maybeAnyObject (rawGet pt thd) pep484, σ1)

/-! Lemmas about the hint-state bookkeeping. -/

theorem needsCount_nil : needsCount [] = 0 := rfl

theorem needsCount_cons (a : HintState) (l : ParseState) :
    needsCount (a :: l) =
      needsCount l + (if a.status = HintStatus.needs_parsing then 1 else 0) := by
  simp only [needsCount, List.countP_cons]
  by_cases ha : a.status = HintStatus.needs_parsing
  · simp [ha]
  · simp [ha, beq_eq_false_iff_ne.mpr ha]

theorem needsCount_set_le (σ : ParseState) (h : Nat) (e : HintState)
    (he : e.status ≠ HintStatus.needs_parsing) :
    needsCount (setHint σ h e) ≤ needsCount σ := by
  induction σ generalizing h with
  | nil => simp [setHint, needsCount]
  | cons a l ih =>
    cases h with
    | zero =>
      show needsCount (e :: l) ≤ needsCount (a :: l)
      rw [needsCount_cons, needsCount_cons, if_neg he]
      exact Nat.add_le_add_left (Nat.zero_le _) _
    | succ h =>
      show needsCount (a :: setHint l h e) ≤ needsCount (a :: l)
      rw [needsCount_cons, needsCount_cons]
      exact Nat.add_le_add_right (ih h) _

theorem needsCount_set_lt (σ : ParseState) (h : Nat) (r : Option TypeHintNode)
    (hs : (getHint σ h).status = HintStatus.needs_parsing) :
    needsCount (setHint σ h ⟨HintStatus.being_parsed, r⟩) < needsCount σ := by
  induction σ generalizing h with
  | nil => simp [getHint] at hs
  | cons a l ih =>
    cases h with
    | zero =>
      have ha : a.status = HintStatus.needs_parsing := by
        simpa [getHint] using hs
      show needsCount (⟨HintStatus.being_parsed, r⟩ :: l) < needsCount (a :: l)
      have e1 : needsCount (⟨HintStatus.being_parsed, r⟩ :: l) = needsCount l := by
        simp [needsCount, List.countP_cons]
      have e2 : needsCount (a :: l) = needsCount l + 1 := by
        simp [needsCount, List.countP_cons, ha]
      omega
    | succ h =>
      have hs' : (getHint l h).status = HintStatus.needs_parsing := by
        simpa [getHint] using hs
      show needsCount (a :: setHint l h ⟨HintStatus.being_parsed, r⟩) < needsCount (a :: l)
      rw [needsCount_cons, needsCount_cons]
      exact Nat.add_lt_add_right (ih h hs') _

/-- Re-entry contract for the `parseTypeHint` callback: on any state
with at most `N` unparsed hints it succeeds and never increases the
number of unparsed hints. -/
def PhOk (ph : Nat → ParseState → Option ParseState) (N : Nat) : Prop :=
  ∀ h σ, needsCount σ ≤ N → ∃ σ', ph h σ = some σ' ∧ needsCount σ' ≤ needsCount σ

theorem copyTypeHintNode_ok {ph : Nat → ParseState → Option ParseState} {N : Nat}
    (hph : PhOk ph N) (thd : Nat) (σ : ParseState) (hσ : needsCount σ ≤ N) :
    ∃ nd σ', copyTypeHintNode ph thd σ = some (nd, σ') ∧ needsCount σ' ≤ needsCount σ := by
  obtain ⟨σ', heq, hle⟩ := hph thd σ hσ
  exact ⟨(getHint σ' thd).root, σ', by simp [copyTypeHintNode, heq], hle⟩

theorem lookupTypeGo_ok {ph : Nat → ParseState → Option ParseState} {N : Nat}
    (hph : PhOk ph N) (pt : SipSpec) (out : Bool) :
    ∀ (fuel : Nat) (scd smtd : Option Nat) (fullname rem : List Char) (σ : ParseState),
      rem.length < fuel → needsCount σ ≤ N →
      ∃ nd σ', lookupTypeGo ph pt out fuel scd smtd fullname rem σ = some (nd, σ') ∧
        needsCount σ' ≤ needsCount σ := by
  intro fuel
  induction fuel with
  | zero => intro _ _ _ rem _ hlen; omega
  | succ f ih =>
    intro scd smtd fullname rem σ hlen hσ
    match rem with
    | [] => exact ⟨some (TypeHintNode.other (String.mk fullname)), σ, rfl, le_refl _⟩
    | c :: cs =>
      have hrest : ∀ hne : ¬((((c :: cs).drop
          ((c :: cs).takeWhile fun ch => ch != '.').length).isEmpty : Bool) = true),
          (((c :: cs).drop
            ((c :: cs).takeWhile fun ch => ch != '.').length).drop 1).length < f := by
        intro hne
        have h2 : ((c :: cs).drop ((c :: cs).takeWhile fun ch => ch != '.').length) ≠ [] := by
          intro h0
          exact hne (by simp [h0])
        have h3 := List.length_pos.mpr h2
        have h4 := (List.takeWhile_sublist (l := c :: cs) (fun ch => ch != '.')).length_le
        simp only [List.length_drop, List.length_cons] at h3 ⊢
        simp only [List.length_cons] at hlen h4
        omega
      simp only [lookupTypeGo]
      rcases hE : lookupEnum pt (String.mk ((c :: cs).takeWhile fun ch => ch != '.')) scd smtd with
        _ | ed
      · simp only [hE]
        rcases smtd with _ | mv
        · simp only [Option.isSome_none, Bool.false_eq_true, if_false]
          rcases hMT : (if scd = none then
              lookupMappedType pt (String.mk ((c :: cs).takeWhile fun ch => ch != '.'))
              else none) with _ | mtd
          · simp only [hMT]
            rcases hC : lookupClass pt (String.mk ((c :: cs).takeWhile fun ch => ch != '.')) scd
              with _ | cd
            · exact ⟨some (TypeHintNode.other (String.mk fullname)), σ, by simp [hC], le_refl _⟩
            · simp only [hC]
              by_cases hLast : (((c :: cs).drop
                  ((c :: cs).takeWhile fun ch => ch != '.').length).isEmpty : Bool) = true
              · simp only [hLast, if_true]
                rcases hTh : (if out then (classGet pt cd).typehint_out
                    else (classGet pt cd).typehint_in) with _ | thd
                · exact ⟨some (TypeHintNode.classNode cd), σ, by simp [hTh], le_refl _⟩
                · simp only [hTh]
                  by_cases hbp : (getHint σ thd).status ≠ HintStatus.being_parsed
                  · obtain ⟨nd, σ', heq, hle⟩ := copyTypeHintNode_ok hph thd σ hσ
                    exact ⟨nd, σ', by simp [hbp, heq], hle⟩
                  · exact ⟨some (TypeHintNode.classNode cd), σ, by simp [hbp], le_refl _⟩
              · simp only [hLast, if_false]
                exact ih (some cd) none fullname _ σ (hrest hLast) hσ
          · simp only [hMT]
            by_cases hLast : (((c :: cs).drop
                ((c :: cs).takeWhile fun ch => ch != '.').length).isEmpty : Bool) = true
            · simp only [hLast, if_true]
              rcases hTh : (if out then (mtdGet pt mtd).typehint_out
                  else (mtdGet pt mtd).typehint_in) with _ | thd
              · exact ⟨none, σ, by simp [hTh], le_refl _⟩
              · simp only [hTh]
                by_cases hbp : (getHint σ thd).status ≠ HintStatus.being_parsed
                · obtain ⟨nd, σ', heq, hle⟩ := copyTypeHintNode_ok hph thd σ hσ
                  exact ⟨nd, σ', by simp [hbp, heq], hle⟩
                · exact ⟨none, σ, by simp [hbp], le_refl _⟩
            · simp only [hLast, if_false]
              exact ih none (some mtd) fullname _ σ (hrest hLast) hσ
        · exact ⟨some (TypeHintNode.other (String.mk fullname)), σ, by simp, le_refl _⟩
      · simp only [hE]
        by_cases hLast : (((c :: cs).drop
            ((c :: cs).takeWhile fun ch => ch != '.').length).isEmpty : Bool) = true
        · exact ⟨some (TypeHintNode.enumNode ed), σ, by simp [hLast], le_refl _⟩
        · exact ⟨some (TypeHintNode.other (String.mk fullname)), σ, by simp [hLast], le_refl _⟩

theorem parseTypeHintName_ok {ph : Nat → ParseState → Option ParseState} {N : Nat}
    (hph : PhOk ph N) (pt : SipSpec) (out : Bool) (tl : Bool) (name : List Char)
    (hb : Bool) (children : List TypeHintNode) (σ : ParseState) (hσ : needsCount σ ≤ N) :
    ∃ ok nd σ', parseTypeHintName ph pt out tl name hb children σ = some (ok, nd, σ') ∧
      needsCount σ' ≤ needsCount σ := by
  simp only [parseTypeHintName]
  by_cases h0 : (name.isEmpty : Bool) = true
  · by_cases h1 : (tl && hb && children.isEmpty) = true
    · exact ⟨false, none, σ, by simp [h0, h1], le_refl _⟩
    · exact ⟨true, some TypeHintNode.brackets, σ, by simp [h0, h1], le_refl _⟩
  · rcases hT : typingModule (String.mk name) with _ | ty
    · obtain ⟨nd, σ', heq, hle⟩ :=
        lookupTypeGo_ok hph pt out (name.length + 1) none none name name σ (by omega) hσ
      rcases hb with _ | _
      · exact ⟨true, nd, σ', by simp [h0, hT, lookupType, heq], hle⟩
      · exact ⟨false, none, σ', by simp [h0, hT, lookupType, heq], hle⟩
    · by_cases hU : ty = "Union"
      · by_cases hc : (children.isEmpty : Bool) = true
        · exact ⟨true, none, σ, by simp [h0, hT, hU, hc], le_refl _⟩
        · exact ⟨true, some (TypeHintNode.typing ty (flatten_unions children)), σ,
            by simp [h0, hT, hU, hc], le_refl _⟩
      · exact ⟨true, some (TypeHintNode.typing ty children), σ, by simp [h0, hT, hU], le_refl _⟩

/-- Total size of a list of spans: characters plus one separator per
span, the budget a nested parse of all of them can consume. -/
def spanSize : List (List Char) → Nat
  | [] => 0
  | s :: rest => s.length + 1 + spanSize rest

theorem splitChildrenGo_size :
    ∀ (l : List Char) (d : Nat) (cur : List Char),
      spanSize (splitChildrenGo l d cur) ≤ cur.length + l.length := by
  intro l
  induction l with
  | nil => intro d cur; simp [splitChildrenGo, spanSize]
  | cons c rest ih =>
    intro d cur
    simp only [splitChildrenGo]
    split
    · have := ih (d + 1) (cur ++ [c])
      simp only [List.length_append, List.length_cons, List.length_nil] at *
      omega
    · split
      · split
        · have := ih 0 []
          simp only [spanSize, List.length_nil, List.length_cons] at *
          omega
        · have := ih (d - 1) (cur ++ [c])
          simp only [List.length_append, List.length_cons, List.length_nil] at *
          omega
      · split
        · have := ih 0 []
          simp only [spanSize, List.length_nil, List.length_cons] at *
          omega
        · have := ih d (cur ++ [c])
          simp only [List.length_append, List.length_cons, List.length_nil] at *
          omega

theorem length_strip_leading_le (s : List Char) : (strip_leading s).length ≤ s.length :=
  (List.dropWhile_sublist _).length_le

theorem length_strip_trailing_le (s : List Char) : (strip_trailing s).length ≤ s.length := by
  have := (List.dropWhile_sublist (l := s.reverse) (fun c => c == ' ')).length_le
  simpa [strip_trailing] using this

theorem length_trimSpaces_le (s : List Char) : (trimSpaces s).length ≤ s.length :=
  le_trans (length_strip_trailing_le _) (length_strip_leading_le _)

theorem parseTypeHintNodesF_ok {ph : Nat → ParseState → Option ParseState} {N : Nat}
    (hph : PhOk ph N) (pt : SipSpec) (out : Bool) :
    ∀ (fuel : Nat) (tl : Bool) (spans : List (List Char)) (σ : ParseState),
      spanSize spans < fuel → needsCount σ ≤ N →
      ∃ ok nodes σ', parseTypeHintNodesF ph pt out fuel tl spans σ = some (ok, nodes, σ') ∧
        needsCount σ' ≤ needsCount σ := by
  intro fuel
  induction fuel with
  | zero => intro _ spans _ hlen; omega
  | succ g ih =>
    intro tl spans σ hlen hσ
    match spans with
    | [] => exact ⟨true, [], σ, rfl, le_refl _⟩
    | s :: rest =>
      simp only [parseTypeHintNodesF]
      have hsz : s.length + 1 + spanSize rest < g + 1 := hlen
      rcases hIdx : (trimSpaces s).findIdx? (fun c => c == '[') with _ | i
      · -- no brackets
        simp only [hIdx]
        obtain ⟨ok2, nd, σ2, heqN, hle2⟩ :=
          parseTypeHintName_ok hph pt out tl (trimSpaces s) false [] σ hσ
        rcases ok2 with _ | _
        · exact ⟨false, [], σ2, by simp [heqN], hle2⟩
        · obtain ⟨okr, nodes, σ3, heqR, hle3⟩ :=
            ih tl rest σ2 (by omega) (le_trans hle2 hσ)
          rcases okr with _ | _
          · exact ⟨false, [], σ3, by simp [heqN, heqR], le_trans hle3 hle2⟩
          · refine ⟨true, (match nd with | none => nodes | some n => n :: nodes), σ3, ?_,
              le_trans hle3 hle2⟩
            simp only [heqN, heqR]
            cases nd <;> rfl
      · -- brackets
        simp only [hIdx]
        by_cases hLast : (trimSpaces s).getLast? = some ']'
        · simp only [hLast, if_pos rfl]
          have hchildren : spanSize (splitChildren ((trimSpaces s).drop (i + 1))) < g := by
            have h1 := splitChildrenGo_size ((trimSpaces s).drop (i + 1)) 0 []
            have h2 : ((trimSpaces s).drop (i + 1)).length ≤ (trimSpaces s).length := by
              simp [List.length_drop]
            have h3 := length_trimSpaces_le s
            simp only [splitChildren, List.length_nil] at h1 ⊢
            omega
          obtain ⟨okc, children, σ1, heqC, hle1⟩ :=
            ih false (splitChildren ((trimSpaces s).drop (i + 1))) σ hchildren hσ
          rcases okc with _ | _
          · exact ⟨false, [], σ1, by simp [heqC], hle1⟩
          · obtain ⟨ok2, nd, σ2, heqN, hle2⟩ :=
              parseTypeHintName_ok hph pt out tl (strip_trailing ((trimSpaces s).take i)) true
                children σ1 (le_trans hle1 hσ)
            rcases ok2 with _ | _
            · exact ⟨false, [], σ2, by simp [heqC, heqN], le_trans hle2 hle1⟩
            · obtain ⟨okr, nodes, σ3, heqR, hle3⟩ :=
                ih tl rest σ2 (by omega) (le_trans hle2 (le_trans hle1 hσ))
              rcases okr with _ | _
              · exact ⟨false, [], σ3, by simp [heqC, heqN, heqR],
                  le_trans hle3 (le_trans hle2 hle1)⟩
              · refine ⟨true, (match nd with | none => nodes | some n => n :: nodes), σ3, ?_,
                  le_trans hle3 (le_trans hle2 hle1)⟩
                simp only [heqC, heqN, heqR, hLast, if_pos rfl]
                cases nd <;> rfl
        · exact ⟨false, [], σ, by simp [hLast], le_refl _⟩

theorem parseTypeHintF_ok :
    ∀ (f : Nat) (pt : SipSpec) (out : Bool) (thd : Nat) (σ : ParseState),
      needsCount σ < f →
      ∃ σ', parseTypeHintF f pt out thd σ = some σ' ∧ needsCount σ' ≤ needsCount σ := by
  intro f
  induction f with
  | zero => intro _ _ _ σ h; omega
  | succ f ih =>
    intro pt out thd σ hlt
    simp only [parseTypeHintF]
    by_cases hs : (getHint σ thd).status = HintStatus.needs_parsing
    · simp only [hs, if_pos rfl]
      set σ1 := setHint σ thd ⟨HintStatus.being_parsed, (getHint σ thd).root⟩ with hσ1
      have hdec : needsCount σ1 < needsCount σ := needsCount_set_lt σ thd _ hs
      have hph : PhOk (fun h' σ' => parseTypeHintF f pt out h' σ') (needsCount σ1) := by
        intro h' σ' hσ'
        exact ih pt out h' σ' (by omega)
      obtain ⟨ok, nodes, σ2, heq, hle⟩ :=
        parseTypeHintNodesF_ok hph pt out ((rawGet pt thd).toList.length + 2) true
          [(rawGet pt thd).toList] σ1 (by simp [spanSize]) (le_refl _)
      refine ⟨setHint σ2 thd ⟨HintStatus.parsed, nodes.head?⟩, by rw [heq]; simp, ?_⟩
      have := needsCount_set_le σ2 thd ⟨HintStatus.parsed, nodes.head?⟩ (by simp)
      omega
    · exact ⟨σ, by simp [hs], le_refl _⟩

/-! Small helper lemmas used by the claim theorems. -/

theorem getHint_setHint_parsed (σ : ParseState) (h : Nat) (r : Option TypeHintNode) :
    getHint (setHint σ h ⟨HintStatus.parsed, r⟩) h = ⟨HintStatus.parsed, r⟩ ∨
    getHint (setHint σ h ⟨HintStatus.parsed, r⟩) h = ⟨HintStatus.parsed, none⟩ := by
  induction σ generalizing h with
  | nil => right; rfl
  | cons a l ih =>
    cases h with
    | zero => left; rfl
    | succ h =>
      rcases ih h with h' | h'
      · left; simpa [getHint, setHint] using h'
      · right; simpa [getHint, setHint] using h'

theorem status_setHint_parsed (σ : ParseState) (h : Nat) (r : Option TypeHintNode) :
    (getHint (setHint σ h ⟨HintStatus.parsed, r⟩) h).status = HintStatus.parsed := by
  rcases getHint_setHint_parsed σ h r with h' | h' <;> rw [h']

/-! ### C3: versioned default-implementation selection -/

/-- Containment predicate written from the claim's words: a lower
bound of zero is unbounded below, an upper bound of zero is unbounded
above, and otherwise containment requires `from ≤ r < to`. -/
def rangeContainsRev (avd : ApiVersionRange) (r : Nat) : Bool :=
  (decide (avd.from_v = 0) || decide (avd.from_v ≤ r)) &&
  (decide (avd.to_v = 0) || decide (r < avd.to_v))

theorem inDefaultAPI_eq_rangeContainsRev (pt : SipSpec) (avd : ApiVersionRange) :
    inDefaultAPI pt (some avd) = rangeContainsRev avd (findAPIFrom pt avd.api_name) := by
  rcases avd with ⟨nm, fv, tv⟩
  simp only [inDefaultAPI, rangeContainsRev]
  generalize findAPIFrom pt nm = r
  by_cases hf : 0 < fv
  · by_cases hfr : fv ≤ r
    · have h1 : ¬(fv > r) := by omega
      have h2 : ¬(fv = 0) := by omega
      by_cases ht : 0 < tv
      · by_cases htr : tv ≤ r
        · have h3 : ¬(r < tv) := by omega
          have h4 : ¬(tv = 0) := by omega
          simp [hf, hfr, h1, h2, ht, htr, h3, h4]
        · have h3 : r < tv := by omega
          simp [hf, hfr, h1, h2, ht, htr, h3]
      · have h5 : tv = 0 := by omega
        subst h5
        simp [hf, hfr, h1, h2]
    · have h1 : fv > r := by omega
      have h2 : ¬(fv = 0) := by omega
      simp [hf, hfr, h1, h2]
  · have h0 : fv = 0 := by omega
    subst h0
    by_cases ht : 0 < tv
    · by_cases htr : tv ≤ r
      · have h3 : ¬(r < tv) := by omega
        have h4 : ¬(tv = 0) := by omega
        simp [ht, htr, h3, h4]
      · have h3 : r < tv := by omega
        simp [ht, htr, h3]
    · have h5 : tv = 0 := by omega
      subst h5
      simp

theorem rangeContainsRev_iff (avd : ApiVersionRange) (r : Nat) :
    rangeContainsRev avd r = true ↔
      (¬(avd.from_v > 0 ∧ avd.from_v > r) ∧ ¬(avd.to_v > 0 ∧ avd.to_v ≤ r)) := by
  simp only [rangeContainsRev, Bool.and_eq_true, Bool.or_eq_true, decide_eq_true_eq]
  omega

theorem findAltImpl_eq_find (pt : SipSpec) (def_api : Nat) :
    ∀ chain : List Nat,
      findAltImpl pt def_api chain =
        (match chain.find? (fun i =>
            match (iffGet pt i).api_range with
            | some avd => rangeContainsRev avd def_api
            | none => false) with
         | none => (none, none)
         | some i =>
           if (iffGet pt i).itype = IfaceType.class_iface then (findClassByIff pt i, none)
           else (none, findMtdByIff pt i)) := by
  intro chain
  induction chain with
  | nil => rfl
  | cons i rest ih =>
    rcases hA : (iffGet pt i).api_range with _ | avd
    · simp only [findAltImpl, hA, List.find?_cons, ih]
    · by_cases hc : rangeContainsRev avd def_api = true
      · obtain ⟨hn1, hn2⟩ := (rangeContainsRev_iff avd def_api).mp hc
        have hb1 : ¬((decide (avd.from_v > 0) && decide (avd.from_v > def_api)) = true) := by
          simp only [Bool.and_eq_true, decide_eq_true_eq]
          omega
        have hb2 : ¬((decide (avd.to_v > 0) && decide (avd.to_v ≤ def_api)) = true) := by
          simp only [Bool.and_eq_true, decide_eq_true_eq]
          omega
        simp only [findAltImpl, hA, List.find?_cons, hc, if_neg hb1, if_neg hb2]
      · have hcf : rangeContainsRev avd def_api = false := Bool.eq_false_iff.mpr hc
        have hor : ((decide (avd.from_v > 0) && decide (avd.from_v > def_api)) = true) ∨
            ((decide (avd.to_v > 0) && decide (avd.to_v ≤ def_api)) = true) := by
          by_cases hA1 : avd.from_v > 0 ∧ avd.from_v > def_api
          · left
            simp [hA1.1, hA1.2]
          · by_cases hA2 : avd.to_v > 0 ∧ avd.to_v ≤ def_api
            · right
              simp [hA2.1, hA2.2]
            · exact absurd ((rangeContainsRev_iff avd def_api).mpr ⟨hA1, hA2⟩) hc
        rcases hor with h1 | h2
        · simp only [findAltImpl, hA, List.find?_cons, hcf, if_pos h1, ih]
        · by_cases h1 : ((decide (avd.from_v > 0) && decide (avd.from_v > def_api)) = true)
          · simp only [findAltImpl, hA, List.find?_cons, hcf, if_pos h1, ih]
          · simp only [findAltImpl, hA, List.find?_cons, hcf, if_neg h1, if_pos h2, ih]

/-- Concrete specification for the claim's example: one symbol with two
alternatives whose ranges are `[0, 5)` and `[5, ∞)` against an API
whose configured default revision is `r`. -/
def specC3 (r : Nat) : SipSpec :=
  ⟨["m"],
   [⟨0, IfaceType.class_iface, some ⟨"API", 0, 5⟩, [0, 1]⟩,
    ⟨0, IfaceType.class_iface, some ⟨"API", 5, 0⟩, [0, 1]⟩],
   [⟨"A1", none, 0, none, none, false, false⟩, ⟨"A2", none, 1, none, none, false, false⟩],
   [], [], [], [("API", r)]⟩

/-- Concrete specification with ranges `[1, 3)` and `[4, 5)`, so that
revision 9 matches no alternative. -/
def specC3n (r : Nat) : SipSpec :=
  ⟨["m"],
   [⟨0, IfaceType.class_iface, some ⟨"API", 1, 3⟩, [0, 1]⟩,
    ⟨0, IfaceType.class_iface, some ⟨"API", 4, 5⟩, [0, 1]⟩],
   [⟨"A1", none, 0, none, none, false, false⟩, ⟨"A2", none, 1, none, none, false, false⟩],
   [], [], [], [("API", r)]⟩

/-- C3: version-range containment treats a zero bound as unbounded and
otherwise requires `from ≤ r < to`; the default-implementation scan
returns the first alternative in declaration order whose range contains
the configured revision, and none when no range matches.  With ranges
`[0,5)` and `[5,∞)`, revision 5 selects the second alternative and
revision 4 the first; with ranges `[1,3)` and `[4,5)`, revision 9
selects nothing. -/
theorem C3_default_api_selection :
    (∀ pt : SipSpec, inDefaultAPI pt none = true) ∧
    (∀ (pt : SipSpec) (avd : ApiVersionRange),
      inDefaultAPI pt (some avd) = rangeContainsRev avd (findAPIFrom pt avd.api_name)) ∧
    (∀ (pt : SipSpec) (def_api : Nat) (chain : List Nat),
      findAltImpl pt def_api chain =
        (match chain.find? (fun i =>
            match (iffGet pt i).api_range with
            | some avd => rangeContainsRev avd def_api
            | none => false) with
         | none => (none, none)
         | some i =>
           if (iffGet pt i).itype = IfaceType.class_iface then (findClassByIff pt i, none)
           else (none, findMtdByIff pt i))) ∧
    getClassImplementation (specC3 5) 0 = some 1 ∧
    getClassImplementation (specC3 4) 0 = some 0 ∧
    getClassImplementation (specC3n 9) 0 = none :=
  ⟨fun _ => rfl, inDefaultAPI_eq_rangeContainsRev, findAltImpl_eq_find, rfl, rfl, rfl⟩

/-! ### C4: union flattening -/

/-- Expansion of one node from the claim's words: a `Union` child is
replaced by its own children, anything else stays. -/
def unionChildren : TypeHintNode → List TypeHintNode
  | TypeHintNode.typing nm cs => if nm = "Union" then cs else [TypeHintNode.typing nm cs]
  | n => [n]

/-- Concrete specification for the claim's example: two annotations
`Union[Union[int, str], float]` and `Union[int, str, float]` over an
empty symbol table. -/
def specC4 : SipSpec :=
  ⟨["m"], [], [], [], [], ["Union[Union[int, str], float]", "Union[int, str, float]"], []⟩

/-- C4: `flatten_unions` replaces, preserving left-to-right order,
every child that is itself a `Union` node by that child's own children;
consequently parsing `Union[Union[int, str], float]` and
`Union[int, str, float]` caches structurally equal root nodes. -/
theorem C4_union_flattening :
    (∀ l : List TypeHintNode, flatten_unions l = l.flatMap unionChildren) ∧
    (∃ σ' : ParseState,
      (parseTypeHintF 2 specC4 false 0
          [⟨HintStatus.needs_parsing, none⟩, ⟨HintStatus.needs_parsing, none⟩]).bind
        (fun σa => parseTypeHintF 2 specC4 false 1 σa) = some σ' ∧
      (getHint σ' 0).root = (getHint σ' 1).root ∧
      (getHint σ' 0).root =
        some (TypeHintNode.typing "Union"
          [TypeHintNode.other "int", TypeHintNode.other "str", TypeHintNode.other "float"])) := by
  constructor
  · intro l
    induction l with
    | nil => rfl
    | cons n rest ih =>
      cases n with
      | typing nm cs =>
        by_cases h : nm = "Union" <;>
          simp [flatten_unions, unionChildren, h, ih, List.flatMap_cons]
      | classNode c => simp [flatten_unions, unionChildren, ih, List.flatMap_cons]
      | enumNode e => simp [flatten_unions, unionChildren, ih, List.flatMap_cons]
      | brackets => simp [flatten_unions, unionChildren, ih, List.flatMap_cons]
      | other nm => simp [flatten_unions, unionChildren, ih, List.flatMap_cons]
  · exact ⟨[⟨HintStatus.parsed,
        some (TypeHintNode.typing "Union"
          [TypeHintNode.other "int", TypeHintNode.other "str", TypeHintNode.other "float"])⟩,
      ⟨HintStatus.parsed,
        some (TypeHintNode.typing "Union"
          [TypeHintNode.other "int", TypeHintNode.other "str", TypeHintNode.other "float"])⟩],
      rfl, rfl, rfl⟩

/-! ### C5: bounded termination of parsing and resolution -/

/-- C5: parsing and resolution always terminate within an explicit
budget.  The nesting of annotation re-entry is bounded by the number of
hints still unparsed — `parseTypeHint` marks a hint `being_parsed`
before recursing and every re-entry through `lookupType` checks that
status instead of recursing — so running `parseTypeHintF` with fuel
`needsCount σ + 1` never exhausts the fuel, for every specification,
state and hint, which covers self-referential chains of every length. -/
theorem C5_cycle_termination (pt : SipSpec) (out : Bool) (thd : Nat) (σ : ParseState) :
    ∃ σ', parseTypeHintF (needsCount σ + 1) pt out thd σ = some σ' := by
  obtain ⟨σ', h, _⟩ := parseTypeHintF_ok (needsCount σ + 1) pt out thd σ (by omega)
  exact ⟨σ', h⟩

/-! ### C6: parse-at-most-once caching -/

/-- C6: a hint is parsed at most once.  After any call to
`parseTypeHint` succeeds, calling it again leaves the state untouched
(nothing is re-parsed); a first call that found `needs_parsing` leaves
the hint at `parsed`; and `copyTypeHintNode` afterwards returns exactly
the cached root without changing the state, so two call sites that
resolve the same annotated symbol read structurally equal trees. -/
theorem C6_parse_once (pt : SipSpec) (out : Bool) (thd : Nat) (σ σ' : ParseState) (f f' : Nat)
    (hp : parseTypeHintF (f + 1) pt out thd σ = some σ') :
    parseTypeHintF (f' + 1) pt out thd σ' = some σ' ∧
    ((getHint σ thd).status = HintStatus.needs_parsing →
      (getHint σ' thd).status = HintStatus.parsed) ∧
    (∀ g : Nat,
      copyTypeHintNode (fun h'' σ'' => parseTypeHintF (g + 1) pt out h'' σ'') thd σ' =
        some ((getHint σ' thd).root, σ')) := by
  by_cases hs : (getHint σ thd).status = HintStatus.needs_parsing
  · rcases hM : parseTypeHintNodesF (fun h' σ'' => parseTypeHintF f pt out h' σ'') pt out
        ((rawGet pt thd).toList.length + 2) true [(rawGet pt thd).toList]
        (setHint σ thd ⟨HintStatus.being_parsed, (getHint σ thd).root⟩) with _ | r
    · exfalso
      simp only [parseTypeHintF, hs, if_pos rfl] at hp
      rw [hM] at hp
      exact Option.noConfusion hp
    · rcases r with ⟨ok, nodes, σ2⟩
      have hσ' : σ' = setHint σ2 thd ⟨HintStatus.parsed, nodes.head?⟩ := by
        simp only [parseTypeHintF, hs, if_pos rfl] at hp
        rw [hM] at hp
        simpa using hp.symm
      have hst : (getHint σ' thd).status = HintStatus.parsed := by
        rw [hσ']
        exact status_setHint_parsed σ2 thd nodes.head?
      have hns : ¬((getHint σ' thd).status = HintStatus.needs_parsing) := by
        rw [hst]
        intro hcon
        exact HintStatus.noConfusion hcon
      have hsecond : ∀ k : Nat, parseTypeHintF (k + 1) pt out thd σ' = some σ' := by
        intro k
        simp only [parseTypeHintF, if_neg hns]
      exact ⟨hsecond f', fun _ => hst,
        fun g => by simp [copyTypeHintNode, hsecond g]⟩
  · have hσ' : σ' = σ := by
      simp only [parseTypeHintF, if_neg hs] at hp
      simpa using hp.symm
    subst hσ'
    have hsecond : ∀ k : Nat, parseTypeHintF (k + 1) pt out thd σ' = some σ' := by
      intro k
      simp only [parseTypeHintF, if_neg hs]
    exact ⟨hsecond f', fun hcon => absurd hcon hs,
      fun g => by simp [copyTypeHintNode, hsecond g]⟩

/-- Concrete specification for the C6 witness: one annotation `int`
over an empty symbol table. -/
def specC6 : SipSpec := ⟨["m"], [], [], [], [], ["int"], []⟩

/-- Witness for C6 at the hint `int`: the first parse caches the
`other` node, a second parse leaves the state unchanged, and a copy
returns the cached root. -/
theorem C6_parse_once_witness :
    parseTypeHintF 2 specC6 false 0 [⟨HintStatus.needs_parsing, none⟩] =
      some [⟨HintStatus.parsed, some (TypeHintNode.other "int")⟩] ∧
    parseTypeHintF 2 specC6 false 0 [⟨HintStatus.parsed, some (TypeHintNode.other "int")⟩] =
      some [⟨HintStatus.parsed, some (TypeHintNode.other "int")⟩] ∧
    (getHint [⟨HintStatus.parsed, some (TypeHintNode.other "int")⟩] 0).status =
      HintStatus.parsed ∧
    copyTypeHintNode (fun h σ => parseTypeHintF 2 specC6 false h σ) 0
        [⟨HintStatus.parsed, some (TypeHintNode.other "int")⟩] =
      some (some (TypeHintNode.other "int"),
        [⟨HintStatus.parsed, some (TypeHintNode.other "int")⟩]) := by
  have h := C6_parse_once specC6 false 0 [⟨HintStatus.needs_parsing, none⟩]
    [⟨HintStatus.parsed, some (TypeHintNode.other "int")⟩] 1 1 rfl
  exact ⟨rfl, h.1, h.2.1 rfl, h.2.2 1⟩

/-! ### C9: a Union with zero children -/

/-- Concrete specification for C9: the annotations `Union` and
`Optional[Union]` over an empty symbol table. -/
def specC9 : SipSpec := ⟨["m"], [], [], [], [], ["Union", "Optional[Union]"], []⟩

/-- C9 counterexample: for the annotation `Union` — the `one-of`
keyword with its parameter list omitted — the claim says the annotation
is treated as if absent and nothing derived from it is rendered; the
code parses it to no node but the renderer then falls back to printing
the raw annotation text, emitting the non-empty string `Union`. -/
theorem C9_counterexample :
    pyiTypeHint 2 specC9 0 0 [] true false
        [⟨HintStatus.needs_parsing, none⟩, ⟨HintStatus.needs_parsing, none⟩] =
      some ("Union", [⟨HintStatus.parsed, none⟩, ⟨HintStatus.needs_parsing, none⟩]) ∧
    "Union" ≠ "" :=
  ⟨rfl, by decide⟩

/-- C9 as amended: a `Union` head with zero children parses
successfully to no node at all; nested inside another annotation the
position is omitted from the parent's children (`Optional[Union]`
parses to a childless `Optional`); but a top-level annotation that
parses to no node is not treated as absent — the renderer prints the
raw annotation text through the any-object fallback. -/
theorem C9_amended :
    (∀ (ph : Nat → ParseState → Option ParseState) (pt : SipSpec) (out tl : Bool)
       (σ : ParseState) (g : Nat),
      parseTypeHintNodesF ph pt out (g + 2) tl ["Union".toList] σ = some (true, [], σ)) ∧
    (∃ σ' : ParseState,
      parseTypeHintF 2 specC9 false 1
          [⟨HintStatus.needs_parsing, none⟩, ⟨HintStatus.needs_parsing, none⟩] = some σ' ∧
      (getHint σ' 1).root = some (TypeHintNode.typing "Optional" [])) ∧
    pyiTypeHint 2 specC9 0 0 [] true false
        [⟨HintStatus.needs_parsing, none⟩, ⟨HintStatus.needs_parsing, none⟩] =
      some ("Union", [⟨HintStatus.parsed, none⟩, ⟨HintStatus.needs_parsing, none⟩]) := by
  refine ⟨fun ph pt out tl σ g => rfl,
    ⟨[⟨HintStatus.needs_parsing, none⟩,
      ⟨HintStatus.parsed, some (TypeHintNode.typing "Optional" [])⟩], rfl, rfl⟩, rfl⟩

/-! ### C10: module-level enums are never quoted -/

/-- C10: in PEP 484 mode an enum with no enclosing class and no
enclosing mapped type renders unquoted for every emission ledger and
every output module — at most a module prefix is added when the enum
belongs to another module. -/
theorem C10_module_level_enum_unquoted (pt : SipSpec) (ed mod : Nat) (defined : List Nat)
    (h1 : (enumGet pt ed).ecd = none) (h2 : (enumGet pt ed).emtd = none) :
    prEnumRef pt ed mod defined true =
      (if (enumGet pt ed).module ≠ mod then moduleName pt (enumGet pt ed).module ++ "."
       else "") ++ prScopedEnumName pt ed := by
  simp only [prEnumRef, h1, h2, if_true]
  rw [String.empty_append, String.append_empty]

/-- Concrete specification for the C10 witness: one module-level enum
`G` owned by the only module. -/
def specC10 : SipSpec :=
  ⟨["m"], [], [], [], [⟨some "G", none, none, 0⟩], [], []⟩

/-- Witness for C10: the module-level enum renders bare even though
the emission ledger is empty and the enum belongs to the module being
written. -/
theorem C10_module_level_enum_unquoted_witness :
    prEnumRef specC10 0 0 [] true = "G" :=
  (C10_module_level_enum_unquoted specC10 0 0 [] rfl rfl).trans rfl

/-! ### C1: re-entrant resolution of an in-progress annotation -/

/-- Concrete specification for C1: a mapped type `M` whose inbound and
outbound annotation is hint 0 (`M` itself) and a class `K` whose
annotation is hint 1 (`K` itself). -/
def specC1 : SipSpec :=
  ⟨["m"],
   [⟨0, IfaceType.mappedtype_iface, none, []⟩, ⟨0, IfaceType.class_iface, none, []⟩],
   [⟨"K", none, 1, some 1, some 1, false, false⟩],
   [⟨some "M", 0, some 0, some 0⟩],
   [], ["M", "K"], []⟩

def σC1 : ParseState := [⟨HintStatus.being_parsed, none⟩, ⟨HintStatus.being_parsed, none⟩]

/-- C1 counterexample: the claim says a resolution that reaches a
mapped type *or class* whose directional annotation is `being_parsed`
yields no node.  For the class `K`, whose own annotation is in
progress, `lookupType` instead yields a plain `ClassRef` node — the
reference is rendered, not omitted. -/
theorem C1_counterexample :
    lookupType (fun _ σ => some σ) specC1 false ("K".toList) σC1 =
      some (some (TypeHintNode.classNode 0), σC1) ∧
    some (TypeHintNode.classNode 0) ≠ (none : Option TypeHintNode) :=
  ⟨rfl, by simp⟩

/-- C1 as amended: when resolution of an undotted name reaches a
symbol whose directional annotation is currently `being_parsed`, the
annotation is not parsed again; for a mapped type the resolver yields
no node (the position is omitted from its parent's children), while for
a class it yields a plain `ClassRef` node to the class itself, which is
rendered as a bare reference instead of being expanded.  In both cases
the state is untouched. -/
theorem C1_amended (ph : Nat → ParseState → Option ParseState) (pt : SipSpec) (out : Bool)
    (name : List Char) (σ : ParseState)
    (hnodot : name.takeWhile (fun ch => ch != '.') = name) (hne : name ≠ []) :
    (∀ m th, lookupEnum pt (String.mk name) none none = none →
      lookupMappedType pt (String.mk name) = some m →
      (if out then (mtdGet pt m).typehint_out else (mtdGet pt m).typehint_in) = some th →
      (getHint σ th).status = HintStatus.being_parsed →
      lookupType ph pt out name σ = some (none, σ)) ∧
    (∀ c th, lookupEnum pt (String.mk name) none none = none →
      lookupMappedType pt (String.mk name) = none →
      lookupClass pt (String.mk name) none = some c →
      (if out then (classGet pt c).typehint_out else (classGet pt c).typehint_in) = some th →
      (getHint σ th).status = HintStatus.being_parsed →
      lookupType ph pt out name σ = some (some (TypeHintNode.classNode c), σ)) := by
  match name, hne with
  | c0 :: cs, _ =>
    have hrest : (c0 :: cs).drop ((c0 :: cs).takeWhile fun ch => ch != '.').length = [] := by
      rw [hnodot]
      exact List.drop_length _
    constructor
    · intro m th hE hM hTh hbp
      have hnbp : ¬((getHint σ th).status ≠ HintStatus.being_parsed) := by
        simp [hbp]
      show lookupTypeGo ph pt out ((c0 :: cs).length + 1) none none (c0 :: cs) (c0 :: cs) σ =
        some (none, σ)
      rw [show (c0 :: cs).length + 1 = (cs.length + 1) + 1 from rfl]
      simp only [lookupTypeGo, hE, hrest, hnodot, hM, hTh, List.isEmpty_nil,
        List.drop_length, Option.isSome_none, Bool.false_eq_true, if_false, if_true,
        if_pos rfl, if_neg hnbp]
    · intro c th hE hM hC hTh hbp
      have hnbp : ¬((getHint σ th).status ≠ HintStatus.being_parsed) := by
        simp [hbp]
      show lookupTypeGo ph pt out ((c0 :: cs).length + 1) none none (c0 :: cs) (c0 :: cs) σ =
        some (some (TypeHintNode.classNode c), σ)
      rw [show (c0 :: cs).length + 1 = (cs.length + 1) + 1 from rfl]
      simp only [lookupTypeGo, hE, hrest, hnodot, hM, hC, hTh, List.isEmpty_nil,
        List.drop_length, Option.isSome_none, Bool.false_eq_true, if_false, if_true,
        if_pos rfl, if_neg hnbp]

/-- Witness for C1 at `specC1`: `M` (mapped type, annotation in
progress) resolves to no node; `K` (class, annotation in progress)
resolves to `ClassRef K`. -/
theorem C1_amended_witness :
    lookupType (fun _ σ => some σ) specC1 false ("M".toList) σC1 = some (none, σC1) ∧
    lookupType (fun _ σ => some σ) specC1 false ("K".toList) σC1 =
      some (some (TypeHintNode.classNode 0), σC1) :=
  ⟨(C1_amended (fun _ σ => some σ) specC1 false ("M".toList) σC1 rfl (by decide)).1
      0 0 rfl rfl rfl rfl,
   (C1_amended (fun _ σ => some σ) specC1 false ("K".toList) σC1 rfl (by decide)).2
      0 1 rfl rfl rfl rfl rfl⟩

/-! ### C8: unrecognized head names -/

theorem lookupType_empty_tables (ph : Nat → ParseState → Option ParseState) (pt : SipSpec)
    (out : Bool) (name : List Char) (σ : ParseState)
    (hE : pt.enums = []) (hM : pt.mappedtypes = []) (hC : pt.classes = [])
    (hne : name ≠ []) :
    lookupType ph pt out name σ = some (some (TypeHintNode.other (String.mk name)), σ) := by
  match name, hne with
  | c0 :: cs, _ =>
    have he : ∀ nm scd smtd, lookupEnum pt nm scd smtd = none := by
      intro nm scd smtd
      simp [lookupEnum, hE]
    have hm : ∀ nm, lookupMappedType pt nm = none := by
      intro nm
      simp [lookupMappedType, lookupMappedTypeGo, hM]
    have hc : ∀ nm scd, lookupClass pt nm scd = none := by
      intro nm scd
      simp [lookupClass, lookupClassGo, hC]
    show lookupTypeGo ph pt out ((c0 :: cs).length + 1) none none (c0 :: cs) (c0 :: cs) σ = _
    rw [show (c0 :: cs).length + 1 = (cs.length + 1) + 1 from rfl]
    simp only [lookupTypeGo, he, hm, hc, Option.isSome_none, Bool.false_eq_true, if_false,
      if_pos rfl, if_true]

/-- Concrete specification for C8: the annotation `Foo[int]` over an
empty symbol table. -/
def specC8 : SipSpec := ⟨["m"], [], [], [], [], ["Foo[int]"], []⟩

/-- C8 counterexample: the claim says every unrecognized, unresolvable
head name — bracketed or not — parses to an Opaque node carrying the
raw text.  For the bracketed head `Foo` in `Foo[int]`, the parse
instead fails (only typing-module objects may carry brackets) and no
node at all is cached; the whole annotation then renders through the
raw-text fallback. -/
theorem C8_counterexample :
    parseTypeHintF 2 specC8 false 0 [⟨HintStatus.needs_parsing, none⟩] =
      some [⟨HintStatus.parsed, none⟩] ∧
    pyiTypeHint 2 specC8 0 0 [] true false [⟨HintStatus.needs_parsing, none⟩] =
      some ("Foo[int]", [⟨HintStatus.parsed, none⟩]) :=
  ⟨rfl, rfl⟩

/-- C8 as amended: an unbracketed head name that is none of the
typing-module keywords and resolves to no enum, mapped type or class
parses to an Opaque (`other`) node carrying the trimmed raw text, and
the renderer prints an `other` node verbatim except that the reserved
token `Any` becomes the configured any-type spelling; a *bracketed*
head name outside the typing module, however, fails the parse of that
node after the failed lookup, producing no Opaque node. -/
theorem C8_amended :
    (∀ (ph : Nat → ParseState → Option ParseState) (pt : SipSpec) (out top : Bool)
       (g : Nat) (s : List Char) (σ : ParseState),
      pt.enums = [] → pt.mappedtypes = [] → pt.classes = [] →
      (trimSpaces s).findIdx? (fun c => c == '[') = none →
      trimSpaces s ≠ [] →
      typingModule (String.mk (trimSpaces s)) = none →
      parseTypeHintNodesF ph pt out (g + 2) top [s] σ =
        some (true, [TypeHintNode.other (String.mk (trimSpaces s))], σ)) ∧
    (∀ (f : Nat) (pt : SipSpec) (mod : Nat) (defined : List Nat) (pep : Bool) (nm : String),
      pyiTypeHintNodeF (f + 1) pt mod defined pep (TypeHintNode.other nm) =
        (if nm = "Any" then anyObject pep else nm)) ∧
    (∀ (ph : Nat → ParseState → Option ParseState) (pt : SipSpec) (out tl : Bool)
       (name : List Char) (children : List TypeHintNode) (σ σ1 : ParseState)
       (nd : Option TypeHintNode),
      name ≠ [] → typingModule (String.mk name) = none →
      lookupType ph pt out name σ = some (nd, σ1) →
      parseTypeHintName ph pt out tl name true children σ = some (false, none, σ1)) := by
  refine ⟨?_, ?_, ?_⟩
  · intro ph pt out top g s σ hE hM hC hIdx hne hty
    have hlook := lookupType_empty_tables ph pt out (trimSpaces s) σ hE hM hC hne
    have hname : parseTypeHintName ph pt out top (trimSpaces s) false [] σ =
        some (true, some (TypeHintNode.other (String.mk (trimSpaces s))), σ) := by
      have hne' : ¬((trimSpaces s).isEmpty = true) := by
        simpa [List.isEmpty_iff] using hne
      simp only [parseTypeHintName, if_neg hne', hty, hlook, Bool.false_eq_true, if_false]
    show parseTypeHintNodesF ph pt out ((g + 1) + 1) top [s] σ = _
    simp only [parseTypeHintNodesF, hIdx, hname]
  · intro f pt mod defined pep nm
    by_cases h : nm = "Any"
    · simp [pyiTypeHintNodeF, maybeAnyObject, anyObject, h]
    · simp [pyiTypeHintNodeF, maybeAnyObject, anyObject, h]
  · intro ph pt out tl name children σ σ1 nd hne hty hlook
    have hne' : ¬(name.isEmpty = true) := by
      simpa [List.isEmpty_iff] using hne
    simp only [parseTypeHintName, if_neg hne', hty, hlook, if_true]

/-- Fully empty specification for the C8 witness. -/
def specC8e : SipSpec := ⟨["m"], [], [], [], [], [], []⟩

/-- Witness for C8: `  foo  ` (unknown, no brackets) parses to
`other "foo"`; the renderer substitutes `Any` and prints other names
verbatim; a bracketed unknown head fails its node's parse. -/
theorem C8_amended_witness :
    parseTypeHintNodesF (fun _ σ => some σ) specC8e false 10 true ["  foo  ".toList] [] =
      some (true, [TypeHintNode.other "foo"], []) ∧
    pyiTypeHintNodeF 1 specC8e 0 [] true (TypeHintNode.other "Any") = "typing.Any" ∧
    pyiTypeHintNodeF 1 specC8e 0 [] false (TypeHintNode.other "foo") = "foo" ∧
    parseTypeHintName (fun _ σ => some σ) specC8e false true ("Foo".toList) true
        [TypeHintNode.other "int"] [] = some (false, none, []) := by
  refine ⟨?_, ?_, ?_, ?_⟩
  · exact (C8_amended.1 (fun _ σ => some σ) specC8e false true 8 ("  foo  ".toList) []
      rfl rfl rfl rfl (by decide) rfl).trans rfl
  · exact (C8_amended.2.1 0 specC8e 0 [] true "Any").trans rfl
  · exact (C8_amended.2.1 0 specC8e 0 [] false "foo").trans rfl
  · exact C8_amended.2.2 (fun _ σ => some σ) specC8e false true ("Foo".toList)
      [TypeHintNode.other "int"] [] [] (some (TypeHintNode.other "Foo")) (by decide) rfl rfl

/-! ### C7: malformed bracket syntax -/

/-- Concrete specification for C7: the annotation
`Tuple[List[int]x, str]`, whose first child has significant text after
its closing bracket, over an empty symbol table. -/
def specC7 : SipSpec := ⟨["m"], [], [], [], [], ["Tuple[List[int]x, str]"], []⟩

/-- C7 counterexample: the claim says only the malformed subtree
(`List[int]x`) renders as an Opaque fallback while its sibling `str` is
parsed and rendered unaffected.  The code instead aborts the parse of
the entire annotation: no tree is cached at all, and the renderer
prints the whole raw annotation text, so the sibling is never parsed
into a node of its own. -/
theorem C7_counterexample :
    parseTypeHintF 2 specC7 false 0 [⟨HintStatus.needs_parsing, none⟩] =
      some [⟨HintStatus.parsed, none⟩] ∧
    pyiTypeHint 2 specC7 0 0 [] true false [⟨HintStatus.needs_parsing, none⟩] =
      some ("Tuple[List[int]x, str]", [⟨HintStatus.parsed, none⟩]) :=
  ⟨rfl, rfl⟩

/-- The processing of one span inside `parseTypeHintNodesF`, as a
standalone expression (the body of C `parseTypeHintNode` for a single
span, with child parsing at budget `g`). -/
def parseHeadAux (ph : Nat → ParseState → Option ParseState) (pt : SipSpec) (out : Bool)
    (g : Nat) (top_level : Bool) (s : List Char) (σ : ParseState) :
    Option (Bool × Option TypeHintNode × ParseState) :=
  let span := trimSpaces s
  match span.findIdx? (fun c => c == '[') with
  | some i =>
    if span.getLast? = some ']' then
      match parseTypeHintNodesF ph pt out g false (splitChildren (span.drop (i + 1))) σ with
      | none => none
      | some (false, _, σ1) => some (false, none, σ1)
      | some (true, children, σ1) =>
        parseTypeHintName ph pt out top_level (strip_trailing (span.take i)) true children σ1
    else some (false, none, σ)
  | none => parseTypeHintName ph pt out top_level span false [] σ

theorem parseTypeHintNodesF_cons (ph : Nat → ParseState → Option ParseState) (pt : SipSpec)
    (out : Bool) (g : Nat) (tl : Bool) (s : List Char) (rest : List (List Char))
    (σ : ParseState) :
    parseTypeHintNodesF ph pt out (g + 1) tl (s :: rest) σ =
      (match parseHeadAux ph pt out g tl s σ with
       | none => none
       | some (false, _, σ2) => some (false, [], σ2)
       | some (true, nd, σ2) =>
         match parseTypeHintNodesF ph pt out g tl rest σ2 with
         | none => none
         | some (false, _, σ3) => some (false, [], σ3)
         | some (true, nodes, σ3) =>
           some (true, (match nd with | none => nodes | some n => n :: nodes), σ3)) := by
  simp only [parseTypeHintNodesF, parseHeadAux]
  rcases hIdx : (trimSpaces s).findIdx? (fun c => c == '[') with _ | i
  · rcases hN : parseTypeHintName ph pt out tl (trimSpaces s) false [] σ with _ | ⟨ok, nd, σ2⟩
    · rfl
    · rcases ok with _ | _ <;> rfl
  · by_cases hL : (trimSpaces s).getLast? = some ']'
    · simp only [if_pos hL]
      rcases hC : parseTypeHintNodesF ph pt out g false
          (splitChildren ((trimSpaces s).drop (i + 1))) σ with _ | ⟨okc, ch, σc⟩
      · rfl
      · rcases okc with _ | _
        · rfl
        · rcases hN : parseTypeHintName ph pt out tl
              (strip_trailing ((trimSpaces s).take i)) true ch σc with _ | ⟨ok, nd, σ2⟩
          · rfl
          · rcases ok with _ | _ <;> rfl
    · simp only [if_neg hL]

/-- C7 as amended: a failed parse of one span makes the parse of the
whole span list fail at once — later sibling spans are not parsed and
no nodes are produced — so malformed bracket syntax at any nesting
level propagates to the root; the annotation caches no tree and the
renderer falls back to printing the complete raw annotation text. -/
theorem C7_amended :
    (∀ (ph : Nat → ParseState → Option ParseState) (pt : SipSpec) (out : Bool) (g : Nat)
       (tl : Bool) (s : List Char) (rest : List (List Char)) (σ σ1 : ParseState),
      parseTypeHintNodesF ph pt out (g + 1) tl [s] σ = some (false, [], σ1) →
      parseTypeHintNodesF ph pt out (g + 1) tl (s :: rest) σ = some (false, [], σ1)) ∧
    (∃ σ' : ParseState,
      parseTypeHintF 2 specC7 false 0 [⟨HintStatus.needs_parsing, none⟩] = some σ' ∧
      (getHint σ' 0).root = none) ∧
    pyiTypeHint 2 specC7 0 0 [] true false [⟨HintStatus.needs_parsing, none⟩] =
      some ("Tuple[List[int]x, str]", [⟨HintStatus.parsed, none⟩]) := by
  refine ⟨?_, ⟨[⟨HintStatus.parsed, none⟩], rfl, rfl⟩, rfl⟩
  intro ph pt out g tl s rest σ σ1 hp
  rw [parseTypeHintNodesF_cons] at hp ⊢
  rcases hH : parseHeadAux ph pt out g tl s σ with _ | ⟨ok, nd, σ2⟩
  · rw [hH] at hp
    exact Option.noConfusion hp
  · rw [hH] at hp
    rcases ok with _ | _
    · exact hp
    · exfalso
      rcases g with _ | g2
      · exact Option.noConfusion hp
      · replace hp :
            (match parseTypeHintNodesF ph pt out (g2 + 1) tl ([] : List (List Char)) σ2 with
             | none => none
             | some (false, _, σ3) => some (false, [], σ3)
             | some (true, nodes, σ3) =>
               some (true, (match nd with | none => nodes | some n => n :: nodes), σ3)) =
              some (false, [], σ1) := hp
        have hnil : parseTypeHintNodesF ph pt out (g2 + 1) tl ([] : List (List Char)) σ2 =
            some (true, [], σ2) := rfl
        rw [hnil] at hp
        simp at hp

/-- Witness for C7: the malformed span `List[int]x` fails on its own,
and prepending it to the sibling list `[str]` fails the whole list with
the same final state. -/
theorem C7_amended_witness :
    parseTypeHintNodesF (fun _ σ => some σ) specC7 false 30 false
      ["List[int]x".toList, "str".toList] [] = some (false, [], []) :=
  C7_amended.1 (fun _ σ => some σ) specC7 false 29 false ("List[int]x".toList)
    ["str".toList] [] [] rfl

/-! ### C2: forward-reference quoting of class references -/

/-- The enclosing-scope chain walked by `isDefined`, as a list of
class indices (bounded by the same budget). -/
def scopeChainF (pt : SipSpec) : Nat → Option Nat → List Nat
  | _, none => []
  | 0, some _ => []
  | f + 1, some s => s :: scopeChainF pt f (classGet pt s).ecd

theorem isDefinedScopes_eq_all (pt : SipSpec) (defined : List Nat) :
    ∀ (f : Nat) (scope : Option Nat),
      isDefinedScopes pt f scope defined =
        (scopeChainF pt f scope).all (fun s => inIfaceFileList (classGet pt s).iff defined) := by
  intro f
  induction f with
  | zero =>
    intro scope
    rcases scope with _ | s <;> rfl
  | succ f ih =>
    intro scope
    rcases scope with _ | s
    · rfl
    · simp only [isDefinedScopes, scopeChainF, List.all_cons, ih]
      by_cases h : inIfaceFileList (classGet pt s).iff defined = true
      · simp [h]
      · simp [h, Bool.eq_false_iff.mpr h]

/-- The unquoted text of a class reference: the module prefix for a
foreign module followed by the scoped Python name. -/
def classRefText (pt : SipSpec) (cd mod : Nat) : String :=
  (if (iffGet pt (classGet pt cd).iff).module ≠ mod then
    moduleName pt (iffGet pt (classGet pt cd).iff).module ++ "." else "")
    ++ prScopedPythonName pt (classGet pt cd).ecd (some (classGet pt cd).pyname)

/-- Concrete specification for the C2 counterexample: a single class
`Ext` marked external, owned by the only module. -/
def specC2x : SipSpec :=
  ⟨["m"], [⟨0, IfaceType.class_iface, none, []⟩],
   [⟨"Ext", none, 0, none, none, true, false⟩], [], [], [], []⟩

/-- C2 counterexample: the claim says a same-module class reference is
quoted whenever its interface file is not yet in the emission ledger.
The external class `Ext` lives in the module being written and is not
in the (empty) ledger, yet `prClassRef` renders it unquoted — external
classes are exempted from quoting. -/
theorem C2_counterexample :
    (iffGet specC2x (classGet specC2x 0).iff).module = 0 ∧
    inIfaceFileList (classGet specC2x 0).iff [] = false ∧
    prClassRef specC2x 0 0 [] true = "Ext" ∧
    "Ext" ≠ "'" ++ "Ext" ++ "'" :=
  ⟨rfl, rfl, rfl, by decide⟩

/-- C2 as amended: in PEP 484 mode a class of another module is never
quoted; a class of the current module that is *not marked external* is
quoted exactly when its interface file, or that of one of its enclosing
class scopes up to module level, is not yet in the emission ledger
(external classes are always rendered unquoted). -/
theorem C2_amended (pt : SipSpec) (cd mod : Nat) (defined : List Nat) :
    ((iffGet pt (classGet pt cd).iff).module ≠ mod →
      prClassRef pt cd mod defined true = classRefText pt cd mod) ∧
    ((iffGet pt (classGet pt cd).iff).module = mod → (classGet pt cd).external = false →
      prClassRef pt cd mod defined true =
        (if (inIfaceFileList (classGet pt cd).iff defined &&
              (scopeChainF pt pt.classes.length (classGet pt cd).ecd).all
                (fun s => inIfaceFileList (classGet pt s).iff defined)) = true
         then classRefText pt cd mod
         else "'" ++ classRefText pt cd mod ++ "'")) := by
  constructor
  · intro hmod
    have hdef : isDefined pt (classGet pt cd).iff (classGet pt cd).ecd mod defined = true := by
      simp only [isDefined, if_pos hmod]
    simp only [prClassRef, hdef, Bool.or_true, if_true, classRefText]
    rw [String.empty_append, String.append_empty]
  · intro hmod hext
    have hnmod : ¬((iffGet pt (classGet pt cd).iff).module ≠ mod) := by
      simp [hmod]
    have hdef : isDefined pt (classGet pt cd).iff (classGet pt cd).ecd mod defined =
        (inIfaceFileList (classGet pt cd).iff defined &&
          (scopeChainF pt pt.classes.length (classGet pt cd).ecd).all
            (fun s => inIfaceFileList (classGet pt s).iff defined)) := by
      simp only [isDefined, if_neg hnmod]
      by_cases hin : inIfaceFileList (classGet pt cd).iff defined = true
      · simp only [hin, Bool.true_and, if_neg (by simp [hin] : ¬(!inIfaceFileList
          (classGet pt cd).iff defined) = true)]
        exact isDefinedScopes_eq_all pt defined pt.classes.length (classGet pt cd).ecd
      · have hin' : inIfaceFileList (classGet pt cd).iff defined = false :=
          Bool.eq_false_iff.mpr hin
        simp [hin']
    simp only [prClassRef, hext, Bool.false_or, hdef, classRefText, if_neg hnmod]
    by_cases hc : (inIfaceFileList (classGet pt cd).iff defined &&
        (scopeChainF pt pt.classes.length (classGet pt cd).ecd).all
          (fun s => inIfaceFileList (classGet pt s).iff defined)) = true
    · simp only [hc, if_true]
      rw [String.empty_append, String.append_empty]
    · have hc' := Bool.eq_false_iff.mpr hc
      simp only [hc', Bool.false_eq_true, if_false, if_true]
      rw [String.append_empty, String.empty_append]

/-- Concrete specification for the C2 witness: modules `m0`, `m1`; a
non-external class `W` in `m0` and a class `X` in `m1`. -/
def specC2w : SipSpec :=
  ⟨["m0", "m1"],
   [⟨0, IfaceType.class_iface, none, []⟩, ⟨1, IfaceType.class_iface, none, []⟩],
   [⟨"W", none, 0, none, none, false, false⟩, ⟨"X", none, 1, none, none, false, false⟩],
   [], [], [], []⟩

/-- Witness for C2: `W` is quoted while absent from the ledger,
unquoted once present, and the cross-module reference to `X` is never
quoted. -/
theorem C2_amended_witness :
    prClassRef specC2w 0 0 [] true = "'W'" ∧
    prClassRef specC2w 0 0 [0] true = "W" ∧
    prClassRef specC2w 1 0 [] true = "m1.X" :=
  ⟨((C2_amended specC2w 0 0 []).2 rfl rfl).trans rfl,
   ((C2_amended specC2w 0 0 [0]).2 rfl rfl).trans rfl,
   ((C2_amended specC2w 1 0 []).1 (by decide)).trans rfl⟩

end Sip
